import Mathlib

/-!
# Content hashes of stored objects: `pkg/storage/tsdb/metadata/hash.go`

A shallow embedding of `ObjectHash`, `ObjectHash.Equal` and `CalculateHash`, together with
models of the library calls `CalculateHash` makes (`filepath.Clean`, `os.Open`, `io.Copy`,
`sha256.New` / `Write` / `Sum`, `hex.EncodeToString`, `runutil.CloseWithLogOnErr`).

The operating system is an explicit state (`World`) threaded through the calls; every call
into the operating system or the logger appends an `Event` to the trace of the world.
-/

namespace Metadata

/-- A Go `byte`. -/
abbrev Byte := Fin 256

/-- Truncating conversion `byte(x)`. -/
def byte (x : Nat) : Byte := ⟨x % 256, Nat.mod_lt x (by decide)⟩

/-! ## Go `error` values -/

/-- The `error` values that occur in `CalculateHash`. -/
inductive Error where
  /-- The sentinel `io.EOF`. -/
  | eof : Error
  /-- An error produced by the operating system (for instance an `*fs.PathError`). -/
  | os (msg : String) : Error
  /-- The value `errors.Wrap(cause, msg)`. -/
  | wrap (cause : Error) (msg : String) : Error
  /-- The value `fmt.Errorf(...)` with the formatted message `msg`. -/
  | errorf (msg : String) : Error
deriving DecidableEq, Repr

/-- The text `err.Error()`. -/
def Error.text : Error → String
  | .eof => "EOF"
  | .os msg => msg
  | .wrap cause msg => msg ++ ": " ++ cause.text
  | .errorf msg => msg

/-! ## `crypto/sha256` -/

namespace sha256

/-- The round constants `_K`. -/
def _K : List Nat := [
  0x428a2f98, 0x71374491, 0xb5c0fbcf, 0xe9b5dba5, 0x3956c25b, 0x59f111f1, 0x923f82a4, 0xab1c5ed5,
  0xd807aa98, 0x12835b01, 0x243185be, 0x550c7dc3, 0x72be5d74, 0x80deb1fe, 0x9bdc06a7, 0xc19bf174,
  0xe49b69c1, 0xefbe4786, 0x0fc19dc6, 0x240ca1cc, 0x2de92c6f, 0x4a7484aa, 0x5cb0a9dc, 0x76f988da,
  0x983e5152, 0xa831c66d, 0xb00327c8, 0xbf597fc7, 0xc6e00bf3, 0xd5a79147, 0x06ca6351, 0x14292967,
  0x27b70a85, 0x2e1b2138, 0x4d2c6dfc, 0x53380d13, 0x650a7354, 0x766a0abb, 0x81c2c92e, 0x92722c85,
  0xa2bfe8a1, 0xa81a664b, 0xc24b8b70, 0xc76c51a3, 0xd192e819, 0xd6990624, 0xf40e3585, 0x106aa070,
  0x19a4c116, 0x1e376c08, 0x2748774c, 0x34b0bcb5, 0x391c0cb3, 0x4ed8aa4a, 0x5b9cca4f, 0x682e6ff3,
  0x748f82ee, 0x78a5636f, 0x84c87814, 0x8cc70208, 0x90befffa, 0xa4506ceb, 0xbef9a3f7, 0xc67178f2]

/-- Truncation to a `uint32`. -/
def u32 (x : Nat) : Nat := x % 2 ^ 32

/-- The rotation `bits.RotateLeft32(x, -k)` of a 32-bit word, for `0 < k < 32`. -/
def rotr (x k : Nat) : Nat := u32 ((x >>> k) ||| (x <<< (32 - k)))

/-- The eight chaining words `h[0..8)`, also used for the working variables `a..h`. -/
structure State where
  h0 : Nat
  h1 : Nat
  h2 : Nat
  h3 : Nat
  h4 : Nat
  h5 : Nat
  h6 : Nat
  h7 : Nat
deriving DecidableEq, Repr

/-- The initial chaining value `init0 .. init7`. -/
def init : State :=
  ⟨0x6a09e667, 0xbb67ae85, 0x3c6ef372, 0xa54ff53a, 0x510e527f, 0x9b05688c, 0x1f83d9ab, 0x5be0cd19⟩

/-- The big-endian word `uint32(p[j])<<24 | uint32(p[j+1])<<16 | uint32(p[j+2])<<8 | uint32(p[j+3])`. -/
def word (p : List Byte) (j : Nat) : Nat :=
  ((p.getD j 0).val <<< 24) ||| ((p.getD (j + 1) 0).val <<< 16) |||
    ((p.getD (j + 2) 0).val <<< 8) ||| (p.getD (j + 3) 0).val

/-- The loop `for i := 16; i < 64; i++` that extends the message schedule: `w` holds
`w[0..i)` and `n` more words are appended. -/
def schedule : Nat → List Nat → List Nat
  | 0, w => w
  | n + 1, w =>
    let i := w.length
    let v1 := w.getD (i - 2) 0
    let t1 := (rotr v1 17) ^^^ (rotr v1 19) ^^^ (v1 >>> 10)
    let v2 := w.getD (i - 15) 0
    let t2 := (rotr v2 7) ^^^ (rotr v2 18) ^^^ (v2 >>> 3)
    schedule n (w ++ [u32 (t1 + w.getD (i - 7) 0 + t2 + w.getD (i - 16) 0)])

/-- One iteration of the round loop, with round constant `k` and schedule word `w`. -/
def round : State → Nat → Nat → State
  | ⟨a, b, c, d, e, f, g, h⟩, k, w =>
    let t1 := u32 (h + ((rotr e 6) ^^^ (rotr e 11) ^^^ (rotr e 25)) +
      ((e &&& f) ^^^ ((e ^^^ 0xffffffff) &&& g)) + k + w)
    let t2 := u32 (((rotr a 2) ^^^ (rotr a 13) ^^^ (rotr a 22)) +
      ((a &&& b) ^^^ (a &&& c) ^^^ (b &&& c)))
    ⟨u32 (t1 + t2), a, b, c, u32 (d + t1), e, f, g⟩

/-- The round loop `for i := 0; i < 64; i++`, over the constants and the schedule. -/
def rounds : List Nat → List Nat → State → State
  | k :: ks, w :: ws, r => rounds ks ws (round r k w)
  | _, _, r => r

/-- The body of the loop of `blockGeneric`: the compression of one 64-byte chunk `p`
into the chaining value `h`. -/
def compress (h : State) (p : List Byte) : State :=
  let w := schedule 48 ((List.range 16).map fun i => word p (4 * i))
  let r := rounds _K w h
  ⟨u32 (h.h0 + r.h0), u32 (h.h1 + r.h1), u32 (h.h2 + r.h2), u32 (h.h3 + r.h3),
   u32 (h.h4 + r.h4), u32 (h.h5 + r.h5), u32 (h.h6 + r.h6), u32 (h.h7 + r.h7)⟩

/-- The loop `for len(p) >= chunk` of `blockGeneric`, with `n` iterations available. -/
def blockLoop : Nat → State → List Byte → State
  | 0, h, _ => h
  | n + 1, h, p =>
    if 64 ≤ p.length then blockLoop n (compress h (p.take 64)) (p.drop 64) else h

/-- The function `blockGeneric(dig, p)`; the loop runs at most `len(p)` times. -/
def blockGeneric (h : State) (p : List Byte) : State := blockLoop p.length h p

/-- The hash state `digest`: `x` holds the buffered bytes `x[0..nx)`, `len` is a `uint64`. -/
structure digest where
  h : State
  x : List Byte
  len : Nat
deriving DecidableEq, Repr

/-- The constructor `sha256.New()`. -/
def New : digest := ⟨init, [], 0⟩

/-- The first statement of `Write`, `if d.nx > 0 { ... }`: the buffer is topped up from `p`
and compressed when it is full. -/
def Write.fill (d : digest) (p : List Byte) : digest × List Byte :=
  if 0 < d.x.length then
    let n := min (64 - d.x.length) p.length
    let x := d.x ++ p.take n
    (if x.length = 64 then { d with h := blockGeneric d.h x, x := [] } else { d with x := x },
      p.drop n)
  else (d, p)

/-- The second statement of `Write`, `if len(p) >= chunk { ... }`: the whole chunks of `p`
are compressed. -/
def Write.blocks (s : digest × List Byte) : digest × List Byte :=
  if 64 ≤ s.2.length then
    let n := s.2.length - s.2.length % 64
    ({ s.1 with h := blockGeneric s.1.h (s.2.take n) }, s.2.drop n)
  else s

/-- The third statement of `Write`, `if len(p) > 0 { ... }`: what is left is buffered. -/
def Write.tail (s : digest × List Byte) : digest :=
  if 0 < s.2.length then { s.1 with x := s.2 } else s.1

/-- The method `(*digest).Write`; it never fails and consumes all of `p`. -/
def digest.Write (d : digest) (p : List Byte) : digest :=
  Write.tail (Write.blocks (Write.fill { d with len := (d.len + p.length) % 2 ^ 64 } p))

/-- The eight bytes written by `binary.BigEndian.PutUint64`. -/
def be64 (v : Nat) : List Byte :=
  [byte (v >>> 56), byte (v >>> 48), byte (v >>> 40), byte (v >>> 32),
   byte (v >>> 24), byte (v >>> 16), byte (v >>> 8), byte v]

/-- The four bytes written by `binary.BigEndian.PutUint32`. -/
def be32 (v : Nat) : List Byte :=
  [byte (v >>> 24), byte (v >>> 16), byte (v >>> 8), byte v]

/-- The 32 digest bytes of a chaining value. -/
def State.bytes (s : State) : List Byte :=
  be32 s.h0 ++ be32 s.h1 ++ be32 s.h2 ++ be32 s.h3 ++
    be32 s.h4 ++ be32 s.h5 ++ be32 s.h6 ++ be32 s.h7

/-- The padding `tmp[:t+8]` that `checkSum` writes: `0x80`, zeros up to 56 bytes modulo 64,
and the length in bits. -/
def padlen (len : Nat) : List Byte :=
  let t := if len % 64 < 56 then 56 - len % 64 else 64 + 56 - len % 64
  ((0x80 : Byte) :: List.replicate (t - 1) 0) ++ be64 ((len <<< 3) % 2 ^ 64)

/-- The method `(*digest).checkSum`. Its `panic("d.nx != 0")` is unreachable, see
`checkSum_nx`. -/
def digest.checkSum (d : digest) : List Byte :=
  (d.Write (padlen d.len)).h.bytes

/-- The method `(*digest).Sum`, which works on a copy of the state. -/
def digest.Sum (d : digest) (b : List Byte) : List Byte := b ++ d.checkSum

/-- The chunks of 64 bytes of a message, `n` of them. -/
def chunks : Nat → List Byte → List (List Byte)
  | 0, _ => []
  | n + 1, p => p.take 64 :: chunks n (p.drop 64)

/-- The padded message of FIPS 180-4 section 5.1.1: the message, the byte `0x80`, the least
number of zero bytes that brings the length to 56 modulo 64, and the length in bits as a
64-bit big-endian integer (the standard admits messages shorter than `2 ^ 64` bits; for
longer ones the low 64 bits of the length are used). -/
def pad (m : List Byte) : List Byte :=
  m ++ [(0x80 : Byte)] ++ List.replicate ((119 - m.length % 64) % 64) 0 ++
    be64 ((8 * m.length) % 2 ^ 64)

/-- SHA-256 of a whole message (FIPS 180-4 section 6.2): the padded message is cut into
64-byte blocks, which are compressed in order starting from the initial chaining value. -/
def SHA256 (m : List Byte) : List Byte :=
  ((chunks ((pad m).length / 64) (pad m)).foldl compress init).bytes

/-- The digest has compressed exactly the bytes `pre` and holds a partial chunk. -/
def Absorbed (d : digest) (pre : List Byte) : Prop :=
  64 ∣ pre.length ∧ d.x.length < 64 ∧ d.h = blockGeneric init pre

/-- The digest `d` is the state reached from `New` after the bytes `m` have been written. -/
def Rep (d : digest) (m : List Byte) : Prop :=
  ∃ pre, Absorbed d pre ∧ m = pre ++ d.x ∧ d.len = m.length % 2 ^ 64

end sha256

/-! ## `encoding/hex` -/

namespace hex

/-- The table `hextable`. -/
def hextable : List Char :=
  ['0', '1', '2', '3', '4', '5', '6', '7', '8', '9', 'a', 'b', 'c', 'd', 'e', 'f']

/-- The function `hex.EncodeToString`. -/
def EncodeToString (src : List Byte) : String :=
  String.mk (src.flatMap fun v =>
    [hextable.getD (v.val >>> 4) '0', hextable.getD (v.val &&& 0x0f) '0'])

end hex

/-! ## The operating system and the logger -/

/-- The results of the successive `Read` calls on an open file, up to the first that
returns a non-nil error. A call of `io.Copy` that returns has made finitely many `Read`
calls, the last of which returned a non-nil error. -/
inductive Reads where
  /-- The call `Read` returns `(len data, err)` with `err` not nil. -/
  | last (data : List Byte) (err : Error) : Reads
  /-- The call `Read` returns `(len data, nil)`; `rest` describes the later calls. -/
  | next (data : List Byte) (rest : Reads) : Reads
deriving DecidableEq, Repr

/-- All bytes the reads deliver, in order. -/
def Reads.bytes : Reads → List Byte
  | .last data _ => data
  | .next data rest => data ++ rest.bytes

/-- The error that ends the reads (`io.EOF` at end of file). -/
def Reads.err : Reads → Error
  | .last _ err => err
  | .next _ rest => rest.err

/-- What a path that can be opened holds: the results of reading it from the start and the
result of closing it (`none` is a nil error). `Close` on a handle that has not been closed
before does not return `os.ErrClosed`. -/
structure Node where
  reads : Reads
  closeErr : Option Error
deriving DecidableEq, Repr

/-- An `*os.File` returned by `os.Open`. -/
structure File where
  fd : Nat
  reads : Reads
  closeErr : Option Error
deriving DecidableEq, Repr

/-- The calls into the operating system and the logger. -/
inductive Event where
  /-- The call `os.Open(path)`, with the descriptor on success. -/
  | open (path : String) (fd : Option Nat) : Event
  /-- A call `Read` on descriptor `fd` that returned `n` bytes. -/
  | read (fd : Nat) (n : Nat) : Event
  /-- A call `Close` on descriptor `fd`. -/
  | close (fd : Nat) : Event
  /-- A call `logger.Log("msg", msg, "err", err)`. -/
  | log (msg : String) (err : Error) : Event
deriving DecidableEq, Repr

/-- The state of the environment of `CalculateHash`. -/
structure World where
  /-- The function `filepath.Clean` of the platform. -/
  clean : String → String
  /-- The filesystem: the outcome of opening a path for reading. -/
  fs : String → Except Error Node
  /-- The descriptors that are open. -/
  opened : List Nat
  /-- The next descriptor to hand out. -/
  nextFd : Nat
  /-- The calls made so far, oldest first. -/
  trace : List Event

/-- Records a call. -/
def World.emit (w : World) (e : Event) : World := { w with trace := w.trace ++ [e] }

namespace os

/-- The function `os.Open`: on success a new descriptor is open. -/
def Open (name : String) (w : World) : Except Error File × World :=
  match w.fs name with
  | .error err => (.error err, w.emit (.open name none))
  | .ok node =>
    (.ok ⟨w.nextFd, node.reads, node.closeErr⟩,
      { w with opened := w.nextFd :: w.opened, nextFd := w.nextFd + 1,
               trace := w.trace ++ [.open name (some w.nextFd)] })

/-- The method `(*os.File).Close`: the descriptor is released, also when an error is
returned. -/
def File.Close (f : File) (w : World) : Option Error × World :=
  (f.closeErr, { w with opened := w.opened.erase f.fd, trace := w.trace ++ [.close f.fd] })

end os

namespace io

/-- The loop of `io.Copy(dst, src)` for a hash `dst` (whose `Write` never fails) reading
the file with descriptor `fd`: the bytes of every `Read` that returned some are written,
and the loop ends at the first non-nil error, which is returned unless it is `io.EOF`. -/
def Copy (fd : Nat) : Reads → sha256.digest → World → Option Error × sha256.digest × World
  | .last data err, dst, w =>
    let w1 := w.emit (.read fd data.length)
    let dst1 := if 0 < data.length then dst.Write data else dst
    (if err ≠ Error.eof then some err else none, dst1, w1)
  | .next data rest, dst, w =>
    Copy fd rest (if 0 < data.length then dst.Write data else dst) (w.emit (.read fd data.length))

end io

namespace runutil

/-- Modelled from the spec: `runutil.CloseWithLogOnErr` of `github.com/grafana/dskit`, whose
source is missing. It closes the file and, when closing fails, reports the error, wrapped
with the formatted message, through the logger; it returns nothing. -/
def CloseWithLogOnErr (f : File) (msg : String) (w : World) : World :=
  match os.File.Close f w with
  | (none, w1) => w1
  | (some err, w1) => w1.emit (.log "detected close error" (.wrap err msg))

end runutil

/-! ## `hash.go` -/

/-- The type `HashFunc`, a Go `string`. -/
abbrev HashFunc := String

/-- The constant `SHA256Func`. -/
def SHA256Func : HashFunc := "SHA256"

/-- The constant `NoneFunc`. -/
def NoneFunc : HashFunc := ""

/-- The struct `ObjectHash`. -/
structure ObjectHash where
  Func : HashFunc
  Value : String
deriving DecidableEq, Repr

/-- The zero value `ObjectHash{}`. -/
def ObjectHash.zero : ObjectHash := ⟨"", ""⟩

/-- The method `(*ObjectHash).Equal`. -/
def ObjectHash.Equal (oh other : ObjectHash) : Bool := oh.Value == other.Value

/-- The function `CalculateHash(p, hf, logger)`: the returned pair (a nil error is `none`)
and the world after the call. The logger is the trace of the world, where its `Log` calls
are recorded. The deferred `CloseWithLogOnErr` runs after the returned pair has been
computed and, the results being unnamed, cannot change it. -/
def CalculateHash (p : String) (hf : HashFunc) (w : World) :
    (ObjectHash × Option Error) × World :=
  if hf = SHA256Func then
    match os.Open (w.clean p) w with
    | (.error err, w1) => ((ObjectHash.zero, some (.wrap err "opening file")), w1)
    | (.ok f, w1) =>
      let h := sha256.New
      match io.Copy f.fd f.reads h w1 with
      | (some err, _, w2) =>
        ((ObjectHash.zero, some (.wrap err "copying")),
          runutil.CloseWithLogOnErr f ("closing " ++ p) w2)
      | (none, h1, w2) =>
        (({ Func := SHA256Func, Value := hex.EncodeToString (h1.Sum []) }, none),
          runutil.CloseWithLogOnErr f ("closing " ++ p) w2)
  else
    ((ObjectHash.zero, some (.errorf ("hash function " ++ hf ++ " is not supported"))), w)

/-! ## Vocabulary of the statements -/

/-- The `Read` calls that `io.Copy` makes on descriptor `fd`. -/
def readEvents (fd : Nat) : Reads → List Event
  | .last data _ => [.read fd data.length]
  | .next data rest => .read fd data.length :: readEvents fd rest

/-- The `Log` call of `CloseWithLogOnErr` for a close that returned `ce`, if any. -/
def closeLog (p : String) : Option Error → List Event
  | none => []
  | some err => [.log "detected close error" (.wrap err ("closing " ++ p))]

/-- The calls of a `CalculateHash(p, SHA256Func, logger)` that opens `node` as descriptor
`fd`. -/
def callEvents (p path : String) (fd : Nat) (node : Node) : List Event :=
  [Event.open path (some fd)] ++ readEvents fd node.reads ++ [Event.close fd] ++
    closeLog p node.closeErr

/-- The pair returned once the file is open: the digest of the bytes read when the reads
end with `io.EOF`, the wrapped error otherwise. -/
def outcome (r : Reads) : ObjectHash × Option Error :=
  if r.err = Error.eof then
    (⟨SHA256Func, hex.EncodeToString (sha256.SHA256 r.bytes)⟩, none)
  else (ObjectHash.zero, some (.wrap r.err "copying"))

/-- The events of a trace that the call added to the trace `before`. -/
def added (before after : List Event) : List Event := after.drop before.length

/-- Whether an event is a `Log` call. -/
def Event.isLog : Event → Bool
  | .log _ _ => true
  | _ => false

/-- Whether an event is a `Read` call. -/
def Event.isRead : Event → Bool
  | .read _ _ => true
  | _ => false

/-- Whether an event is a `Close` call. -/
def Event.isClose : Event → Bool
  | .close _ => true
  | _ => false

/-- Whether an event is an `os.Open` call that succeeded. -/
def Event.isOpened : Event → Bool
  | .open _ (some _) => true
  | _ => false

/-- The same world with `node` at `path`. -/
def World.withNode (w : World) (path : String) (node : Node) : World :=
  { w with fs := fun q => if q = path then .ok node else w.fs q }

/-- Lowercase hexadecimal digits. -/
def isLowerHex (c : Char) : Prop := ('0' ≤ c ∧ c ≤ '9') ∨ ('a' ≤ c ∧ c ≤ 'f')

/-! ## Concrete worlds -/

/-- The bytes of the text `abc`. -/
def abc : List Byte := [0x61, 0x62, 0x63]

/-- The bytes of the text `hello`. -/
def hello : List Byte := [0x68, 0x65, 0x6c, 0x6c, 0x6f]

/-- A file that holds `abc`, is read in one piece and closes without error. -/
def abcNode : Node := ⟨.next abc (.last [] .eof), none⟩

/-- A file that holds `hello`, is read in two pieces, the second together with `io.EOF`,
and fails to close. -/
def helloNode : Node :=
  ⟨.next [0x68, 0x65] (.last [0x6c, 0x6c, 0x6f] .eof),
    some (.os "close /data/hello: input/output error")⟩

/-- A file that delivers `ab`, then `c` together with an input/output error. -/
def brokenNode : Node :=
  ⟨.next [0x61, 0x62] (.last [0x63] (.os "read /data/broken: input/output error")), none⟩

/-- A world with the three files above and three descriptors already open. Its paths are
clean, so `filepath.Clean` is the identity on them. -/
def world0 : World where
  clean := id
  fs := fun q =>
    if q = "/data/abc" then .ok abcNode
    else if q = "/data/hello" then .ok helloNode
    else if q = "/data/broken" then .ok brokenNode
    else .error (.os ("open " ++ q ++ ": no such file or directory"))
  opened := [0, 1, 2]
  nextFd := 3
  trace := []

end Metadata

namespace Metadata

/-! ## The streaming digest computes SHA-256 -/

namespace sha256

theorem blockLoop_eq_foldl (n : Nat) : ∀ (h : State) (p : List Byte), p.length / 64 ≤ n →
    blockLoop n h p = (chunks (p.length / 64) p).foldl compress h := by
  induction n with
  | zero =>
    intro h p hp
    have h0 : p.length / 64 = 0 := by omega
    simp [blockLoop, h0, chunks]
  | succ n ih =>
    intro h p hp
    by_cases hl : 64 ≤ p.length
    · have hd : (p.drop 64).length = p.length - 64 := by simp
      have hk : p.length / 64 = (p.drop 64).length / 64 + 1 := by omega
      have hn : (p.drop 64).length / 64 ≤ n := by omega
      rw [blockLoop, if_pos hl, ih _ _ hn, hk, chunks, List.foldl_cons]
    · have h0 : p.length / 64 = 0 := by omega
      simp [blockLoop, hl, h0, chunks]

theorem blockGeneric_eq_foldl (h : State) (p : List Byte) :
    blockGeneric h p = (chunks (p.length / 64) p).foldl compress h :=
  blockLoop_eq_foldl p.length h p (Nat.div_le_self _ _)

theorem chunks_append (k : Nat) : ∀ (p q : List Byte), p.length = 64 * k →
    chunks ((p ++ q).length / 64) (p ++ q) = chunks k p ++ chunks (q.length / 64) q := by
  induction k with
  | zero =>
    intro p q hp
    have : p = [] := List.length_eq_zero.mp (by omega)
    subst this
    simp [chunks]
  | succ k ih =>
    intro p q hp
    have hd : (p.drop 64).length = 64 * k := by simp; omega
    have hk : (p ++ q).length / 64 = ((p.drop 64 ++ q).length) / 64 + 1 := by
      simp only [List.length_append, hd, hp]; omega
    have ht : (p ++ q).take 64 = p.take 64 := by
      rw [List.take_append_of_le_length (by omega)]
    have hdr : (p ++ q).drop 64 = p.drop 64 ++ q := by
      rw [List.drop_append_of_le_length (by omega)]
    rw [hk, chunks, ht, hdr, ih _ _ hd, chunks, List.cons_append]

theorem blockGeneric_append (h : State) (p q : List Byte) (hp : 64 ∣ p.length) :
    blockGeneric h (p ++ q) = blockGeneric (blockGeneric h p) q := by
  obtain ⟨k, hk⟩ := hp
  have hk2 : p.length / 64 = k := by omega
  rw [blockGeneric_eq_foldl, blockGeneric_eq_foldl, blockGeneric_eq_foldl, chunks_append k p q hk,
    List.foldl_append, hk2]

theorem blockGeneric_short (h : State) (p : List Byte) (hp : p.length < 64) :
    blockGeneric h p = h := by
  have h0 : p.length / 64 = 0 := by omega
  rw [blockGeneric_eq_foldl, h0]; rfl

theorem fill_spec (d : digest) (p pre : List Byte) (hd : Absorbed d pre) :
    ∃ pre2, Absorbed (Write.fill d p).1 pre2 ∧
      pre ++ d.x ++ p = pre2 ++ (Write.fill d p).1.x ++ (Write.fill d p).2 ∧
      ((Write.fill d p).1.x = [] ∨ (Write.fill d p).2 = []) ∧ (Write.fill d p).1.len = d.len := by
  obtain ⟨h1, h2, h3⟩ := hd
  unfold Write.fill
  by_cases hx : 0 < d.x.length
  · simp only [if_pos hx]
    by_cases hf : (d.x ++ List.take (min (64 - d.x.length) p.length) p).length = 64
    · simp only [if_pos hf]
      refine ⟨pre ++ (d.x ++ List.take (min (64 - d.x.length) p.length) p), ⟨?_, by simp, ?_⟩,
        ?_, Or.inl trivial, trivial⟩
      · rw [List.length_append, hf]; exact Dvd.dvd.add h1 (dvd_refl 64)
      · show blockGeneric d.h _ = _
        rw [h3, blockGeneric_append _ _ _ h1]
      · simp only [List.append_nil, List.append_assoc, List.take_append_drop]
    · simp only [if_neg hf]
      have hlen : (d.x ++ List.take (min (64 - d.x.length) p.length) p).length
          = d.x.length + min (64 - d.x.length) p.length := by
        simp [List.length_append, List.length_take]
      have hmin : min (64 - d.x.length) p.length = p.length := by
        rw [hlen] at hf; omega
      rw [hmin] at hlen ⊢
      refine ⟨pre, ⟨h1, ?_, h3⟩, ?_, Or.inr (by simp), trivial⟩
      · show (d.x ++ List.take p.length p).length < 64
        rw [hlen]; rw [hmin] at hf ; rw [hlen] at hf; omega
      · simp
  · simp only [if_neg hx]
    have hn : d.x = [] := List.length_eq_zero.mp (by omega)
    exact ⟨pre, ⟨h1, h2, h3⟩, rfl, Or.inl hn, trivial⟩

theorem blocks_spec (s : digest × List Byte) (pre : List Byte) (hd : Absorbed s.1 pre)
    (hs : s.1.x = [] ∨ s.2 = []) :
    ∃ pre2, Absorbed (Write.blocks s).1 pre2 ∧
      pre ++ s.1.x ++ s.2 = pre2 ++ (Write.blocks s).1.x ++ (Write.blocks s).2 ∧
      ((Write.blocks s).1.x = [] ∨ (Write.blocks s).2 = []) ∧
      (Write.blocks s).2.length < 64 ∧ (Write.blocks s).1.len = s.1.len := by
  obtain ⟨h1, h2, h3⟩ := hd
  unfold Write.blocks
  by_cases hl : 64 ≤ s.2.length
  · simp only [if_pos hl]
    have hx : s.1.x = [] := by
      rcases hs with hs | hs
      · exact hs
      · rw [hs] at hl; simp at hl
    have htl : (List.take (s.2.length - s.2.length % 64) s.2).length
        = s.2.length - s.2.length % 64 := by
      rw [List.length_take]; omega
    refine ⟨pre ++ List.take (s.2.length - s.2.length % 64) s.2, ⟨?_, h2, ?_⟩, ?_, Or.inl hx,
      ?_, trivial⟩
    · rw [List.length_append, htl]
      refine Dvd.dvd.add h1 ?_
      exact (Nat.dvd_sub_mod _)
    · show blockGeneric s.1.h _ = _
      rw [h3, blockGeneric_append _ _ _ h1]
    · show pre ++ s.1.x ++ s.2 = _ ++ s.1.x ++ _
      rw [hx]; simp only [List.append_nil, List.append_assoc, List.take_append_drop]
    · show (List.drop _ s.2).length < 64
      rw [List.length_drop]; omega
  · simp only [if_neg hl]
    exact ⟨pre, ⟨h1, h2, h3⟩, rfl, hs, by omega, trivial⟩

theorem tail_spec (s : digest × List Byte) (pre : List Byte) (hd : Absorbed s.1 pre)
    (hs : s.1.x = [] ∨ s.2 = []) (hl : s.2.length < 64) :
    Absorbed (Write.tail s) pre ∧ pre ++ s.1.x ++ s.2 = pre ++ (Write.tail s).x ∧
      (Write.tail s).len = s.1.len := by
  obtain ⟨h1, h2, h3⟩ := hd
  unfold Write.tail
  by_cases hp : 0 < s.2.length
  · simp only [if_pos hp]
    have hx : s.1.x = [] := by
      rcases hs with hs | hs
      · exact hs
      · rw [hs] at hp; simp at hp
    exact ⟨⟨h1, hl, h3⟩, by rw [hx]; simp, trivial⟩
  · simp only [if_neg hp]
    have hn : s.2 = [] := List.length_eq_zero.mp (by omega)
    exact ⟨⟨h1, h2, h3⟩, by rw [hn]; simp, trivial⟩

theorem New_rep : Rep New [] :=
  ⟨[], ⟨by simp, by simp [New], by simp [New, blockGeneric, blockLoop]⟩, by simp [New], by simp [New]⟩

theorem Write_rep (d : digest) (m p : List Byte) (hd : Rep d m) : Rep (d.Write p) (m ++ p) := by
  obtain ⟨pre, ha, hm, hlen⟩ := hd
  have ha1 : Absorbed { d with len := (d.len + p.length) % 2 ^ 64 } pre := ha
  obtain ⟨pre2, hb, hm2, hs2, hl2⟩ := fill_spec _ p pre ha1
  obtain ⟨pre3, hc, hm3, hs3, hlt3, hl3⟩ := blocks_spec _ pre2 hb hs2
  obtain ⟨he, hm4, hl4⟩ := tail_spec _ pre3 hc hs3 hlt3
  refine ⟨pre3, he, ?_, ?_⟩
  · unfold digest.Write
    rw [← hm4, ← hm3, ← hm2, hm]
  · unfold digest.Write
    rw [hl4, hl3, hl2]
    show (d.len + p.length) % 2 ^ 64 = _
    rw [hlen, List.length_append, Nat.mod_add_mod]

theorem padlen_eq (m : List Byte) : m ++ padlen (m.length % 2 ^ 64) = pad m := by
  have hr : m.length % 2 ^ 64 % 64 = m.length % 64 := by omega
  have hb : ((m.length % 2 ^ 64) <<< 3) % 2 ^ 64 = (8 * m.length) % 2 ^ 64 := by
    rw [Nat.shiftLeft_eq]; omega
  have ht : (if m.length % 64 < 56 then 56 - m.length % 64 else 64 + 56 - m.length % 64) - 1
      = (119 - m.length % 64) % 64 := by
    split <;> omega
  unfold padlen pad
  simp only [hr, hb, ht, List.append_assoc, List.singleton_append, List.cons_append,
    List.nil_append]

theorem pad_length (m : List Byte) : 64 ∣ (pad m).length := by
  unfold pad
  simp only [List.length_append, List.length_singleton, List.length_replicate, be64,
    List.length_cons, List.length_nil]
  omega

theorem Rep_full (d : digest) (m : List Byte) (hd : Rep d m) (hm : 64 ∣ m.length) :
    d.x = [] ∧ d.h = blockGeneric init m := by
  obtain ⟨pre, ⟨h1, h2, h3⟩, hpre, _⟩ := hd
  have hlen : m.length = pre.length + d.x.length := by rw [hpre, List.length_append]
  have hx : d.x = [] := List.length_eq_zero.mp (by omega)
  refine ⟨hx, ?_⟩
  rw [h3, hpre, hx, List.append_nil]

/-- After `checkSum` has written the padding the buffer is empty: `panic("d.nx != 0")` is
not reached. -/
theorem checkSum_nx (d : digest) (m : List Byte) (hd : Rep d m) :
    (d.Write (padlen d.len)).x = [] := by
  have hr := Write_rep d m (padlen d.len) hd
  obtain ⟨_, _, _, hlen⟩ := hd
  rw [hlen, padlen_eq] at hr
  rw [hlen]
  exact (Rep_full _ _ hr (pad_length m)).1

/-- The digest that has been fed the bytes `m`, in whatever pieces, sums to SHA-256 of `m`. -/
theorem checkSum_eq (d : digest) (m : List Byte) (hd : Rep d m) : d.checkSum = SHA256 m := by
  have hr := Write_rep d m (padlen d.len) hd
  obtain ⟨_, _, _, hlen⟩ := hd
  rw [hlen, padlen_eq] at hr
  unfold digest.checkSum SHA256
  rw [hlen, (Rep_full _ _ hr (pad_length m)).2, blockGeneric_eq_foldl]

theorem State.bytes_length (s : State) : s.bytes.length = 32 := rfl

end sha256

/-! ## `io.Copy` and `CalculateHash` -/

theorem Copy_spec (fd : Nat) : ∀ (r : Reads) (d : sha256.digest) (w : World) (m : List Byte),
    sha256.Rep d m →
    (io.Copy fd r d w).1 = (if r.err ≠ Error.eof then some r.err else none) ∧
    sha256.Rep (io.Copy fd r d w).2.1 (m ++ r.bytes) ∧
    (io.Copy fd r d w).2.2 = { w with trace := w.trace ++ readEvents fd r } := by
  intro r
  induction r with
  | last data err =>
    intro d w m hd
    refine ⟨rfl, ?_, rfl⟩
    show sha256.Rep (if 0 < data.length then d.Write data else d) (m ++ data)
    split
    · exact sha256.Write_rep d m data hd
    · have : data = [] := List.length_eq_zero.mp (by omega)
      rw [this, List.append_nil]; exact hd
  | next data rest ih =>
    intro d w m hd
    have hd2 : sha256.Rep (if 0 < data.length then d.Write data else d) (m ++ data) := by
      split
      · exact sha256.Write_rep d m data hd
      · have : data = [] := List.length_eq_zero.mp (by omega)
        rw [this, List.append_nil]; exact hd
    obtain ⟨h1, h2, h3⟩ := ih _ (w.emit (.read fd data.length)) _ hd2
    refine ⟨?_, ?_, ?_⟩
    · rw [io.Copy, h1]; rfl
    · rw [io.Copy, Reads.bytes, ← List.append_assoc]; exact h2
    · rw [io.Copy, h3]
      simp [World.emit, readEvents]

theorem CloseWithLogOnErr_spec (f : File) (p : String) (w : World) :
    runutil.CloseWithLogOnErr f ("closing " ++ p) w =
      { w with opened := w.opened.erase f.fd,
               trace := w.trace ++ ([Event.close f.fd] ++ closeLog p f.closeErr) } := by
  unfold runutil.CloseWithLogOnErr os.File.Close
  cases hce : f.closeErr <;> simp [World.emit, closeLog]

/-- The whole behaviour of `CalculateHash(p, SHA256Func, logger)` when the open succeeds. -/
theorem CalculateHash_opened (p : String) (w : World) (node : Node)
    (ho : w.fs (w.clean p) = .ok node) :
    CalculateHash p SHA256Func w =
      (outcome node.reads,
        { w with nextFd := w.nextFd + 1,
                 trace := w.trace ++ callEvents p (w.clean p) w.nextFd node }) := by
  have hopen : os.Open (w.clean p) w =
      (.ok ⟨w.nextFd, node.reads, node.closeErr⟩,
        { w with opened := w.nextFd :: w.opened, nextFd := w.nextFd + 1,
                 trace := w.trace ++ [.open (w.clean p) (some w.nextFd)] }) := by
    unfold os.Open; rw [ho]
  obtain ⟨h1, h2, h3⟩ := Copy_spec w.nextFd node.reads sha256.New
    { w with opened := w.nextFd :: w.opened, nextFd := w.nextFd + 1,
             trace := w.trace ++ [.open (w.clean p) (some w.nextFd)] } [] sha256.New_rep
  unfold CalculateHash
  rw [if_pos rfl, hopen]
  simp only []
  rcases hc : io.Copy w.nextFd node.reads sha256.New
    { w with opened := w.nextFd :: w.opened, nextFd := w.nextFd + 1,
             trace := w.trace ++ [.open (w.clean p) (some w.nextFd)] } with ⟨e, d, w2⟩
  rw [hc] at h1 h2 h3
  simp only [List.nil_append] at h1 h2 h3
  subst h3
  have hw : runutil.CloseWithLogOnErr ⟨w.nextFd, node.reads, node.closeErr⟩ ("closing " ++ p)
      { w with opened := w.nextFd :: w.opened, nextFd := w.nextFd + 1,
               trace := w.trace ++ [.open (w.clean p) (some w.nextFd)] ++
                 readEvents w.nextFd node.reads } =
      { w with nextFd := w.nextFd + 1,
               trace := w.trace ++ callEvents p (w.clean p) w.nextFd node } := by
    rw [CloseWithLogOnErr_spec]
    simp only [List.erase_cons_head, callEvents, List.append_assoc]
  by_cases he : node.reads.err = Error.eof
  · rw [if_neg (not_not.mpr he)] at h1
    subst h1
    have hs : d.Sum [] = sha256.SHA256 node.reads.bytes := by
      rw [sha256.digest.Sum, List.nil_append, sha256.checkSum_eq d _ h2]
    have ho2 : outcome node.reads =
        (⟨SHA256Func, hex.EncodeToString (sha256.SHA256 node.reads.bytes)⟩, none) := by
      rw [outcome, if_pos he]
    dsimp only
    rw [hs, ho2, hw]
  · rw [if_pos he] at h1
    subst h1
    have ho2 : outcome node.reads = (ObjectHash.zero, some (.wrap node.reads.err "copying")) := by
      rw [outcome, if_neg he]
    dsimp only
    rw [ho2, hw]

theorem CalculateHash_unsupported (p : String) (hf : HashFunc) (w : World)
    (h : hf ≠ SHA256Func) :
    CalculateHash p hf w =
      ((ObjectHash.zero, some (.errorf ("hash function " ++ hf ++ " is not supported"))), w) := by
  unfold CalculateHash
  rw [if_neg h]

theorem CalculateHash_open_failed (p : String) (w : World) (e : Error)
    (ho : w.fs (w.clean p) = .error e) :
    CalculateHash p SHA256Func w =
      ((ObjectHash.zero, some (.wrap e "opening file")),
        { w with trace := w.trace ++ [.open (w.clean p) none] }) := by
  have hopen : os.Open (w.clean p) w =
      (.error e, { w with trace := w.trace ++ [.open (w.clean p) none] }) := by
    unfold os.Open; rw [ho]; rfl
  unfold CalculateHash
  rw [if_pos rfl, hopen]

theorem added_append (t evs : List Event) : added t (t ++ evs) = evs := by
  unfold added
  exact List.drop_left t evs

theorem added_self (t : List Event) : added t t = [] := by
  unfold added
  exact List.drop_length t


theorem filter_readEvents (f : Event → Bool) (hf : ∀ fd n, f (.read fd n) = false) (fd : Nat) :
    ∀ r : Reads, (readEvents fd r).filter f = [] := by
  intro r
  induction r with
  | last data err => simp [readEvents, hf]
  | next data rest ih => simp [readEvents, hf, ih]

theorem filter_isLog_callEvents (p path : String) (fd : Nat) (node : Node) :
    (callEvents p path fd node).filter Event.isLog = closeLog p node.closeErr := by
  unfold callEvents
  rw [List.filter_append, List.filter_append, List.filter_append,
    filter_readEvents Event.isLog (fun _ _ => rfl)]
  cases node.closeErr <;> simp [closeLog, Event.isLog]

theorem filter_handles_callEvents (p path : String) (fd : Nat) (node : Node) :
    (callEvents p path fd node).filter (fun e => e.isOpened || e.isClose) =
      [Event.open path (some fd), Event.close fd] := by
  unfold callEvents
  rw [List.filter_append, List.filter_append, List.filter_append,
    filter_readEvents _ (fun _ _ => rfl)]
  cases node.closeErr <;> simp [closeLog, Event.isOpened, Event.isClose]

theorem hextable_getD (i : Nat) : isLowerHex (hex.hextable.getD i '0') := by
  unfold isLowerHex
  by_cases h : i < 16
  · interval_cases i <;> decide
  · rw [List.getD_eq_default _ _ (by simp [hex.hextable]; omega)]
    decide

theorem EncodeToString_length (src : List Byte) :
    (hex.EncodeToString src).length = 2 * src.length := by
  unfold hex.EncodeToString
  show (List.flatMap src _).length = _
  induction src with
  | nil => rfl
  | cons v vs ih => simp only [List.flatMap_cons, List.length_append, ih, List.length_cons,
      List.length_nil]; omega

theorem EncodeToString_chars (src : List Byte) :
    ∀ c ∈ (hex.EncodeToString src).toList, isLowerHex c := by
  intro c hc
  unfold hex.EncodeToString at hc
  have hc2 : c ∈ List.flatMap src
      (fun v => [hex.hextable.getD (v.val >>> 4) '0', hex.hextable.getD (v.val &&& 0x0f) '0']) := hc
  rw [List.mem_flatMap] at hc2
  obtain ⟨v, _, hv⟩ := hc2
  simp only [List.mem_cons, List.mem_singleton, List.not_mem_nil, or_false] at hv
  rcases hv with hv | hv <;> rw [hv] <;> exact hextable_getD _

theorem SHA256_length (m : List Byte) : (sha256.SHA256 m).length = 32 :=
  sha256.State.bytes_length _

/-! ## The claims -/

/-- C1: when opening `filepath.Clean(p)` succeeds and reading the file to end of file
delivers the bytes `b` without error, `CalculateHash(p, SHA256Func, logger)` returns a nil
error and the `ObjectHash` with `Func` `SHA256Func` and `Value` the hex encoding of
SHA-256 of `b`. -/
theorem C1_digest_of_bytes_read (p : String) (w : World) (node : Node) (b : List Byte)
    (ho : w.fs (w.clean p) = .ok node) (hr : node.reads.err = Error.eof)
    (hb : node.reads.bytes = b) :
    (CalculateHash p SHA256Func w).1 =
      ({ Func := SHA256Func, Value := hex.EncodeToString (sha256.SHA256 b) }, none) := by
  rw [CalculateHash_opened p w node ho, ← hb]
  show outcome node.reads = _
  rw [outcome, if_pos hr]

/-- C1 at `/data/hello`, which is read in two pieces and fails to close: the digest of
`hello`. -/
theorem C1_digest_of_bytes_read_witness :
    world0.fs (world0.clean "/data/hello") = .ok helloNode ∧
    helloNode.reads.err = Error.eof ∧ helloNode.reads.bytes = hello ∧
    (CalculateHash "/data/hello" SHA256Func world0).1 =
      ({ Func := SHA256Func,
         Value := "2cf24dba5fb0a30e26e83b2ac5b9e29e1b161e5c1fa7425e73043362938b9824" }, none) :=
  ⟨rfl, rfl, rfl,
    (C1_digest_of_bytes_read "/data/hello" world0 helloNode hello rfl rfl rfl).trans
      (by decide)⟩

/-- C2: for every `HashFunc` other than `SHA256Func`, `CalculateHash` returns the zero
`ObjectHash` and the error `hash function ... is not supported`, and leaves the world as it
was: nothing is opened, read, closed or logged. -/
theorem C2_unsupported_fails_fast (p : String) (hf : HashFunc) (w : World)
    (h : hf ≠ SHA256Func) :
    (CalculateHash p hf w).1 =
      (ObjectHash.zero, some (.errorf ("hash function " ++ hf ++ " is not supported"))) ∧
    (CalculateHash p hf w).2 = w ∧
    added w.trace (CalculateHash p hf w).2.trace = [] := by
  rw [CalculateHash_unsupported p hf w h]
  exact ⟨rfl, rfl, added_self _⟩

/-- C2 at `NoneFunc`, on a path that exists. -/
theorem C2_unsupported_fails_fast_witness :
    NoneFunc ≠ SHA256Func ∧
    (CalculateHash "/data/abc" NoneFunc world0).1 =
      (ObjectHash.zero, some (.errorf "hash function  is not supported")) ∧
    (CalculateHash "/data/abc" NoneFunc world0).2 = world0 ∧
    added world0.trace (CalculateHash "/data/abc" NoneFunc world0).2.trace = [] :=
  ⟨by decide, C2_unsupported_fails_fast "/data/abc" NoneFunc world0 (by decide)⟩

/-- C3: when the open fails with `e`, `CalculateHash(p, SHA256Func, logger)` returns the
zero `ObjectHash` and `e` wrapped under `opening file`; the only call it makes is the
failed `os.Open`, so nothing is read, closed or logged and no descriptor is acquired. -/
theorem C3_open_failure (p : String) (w : World) (e : Error)
    (ho : w.fs (w.clean p) = .error e) :
    (CalculateHash p SHA256Func w).1 = (ObjectHash.zero, some (.wrap e "opening file")) ∧
    (Error.wrap e "opening file").text = "opening file: " ++ e.text ∧
    added w.trace (CalculateHash p SHA256Func w).2.trace = [.open (w.clean p) none] ∧
    (CalculateHash p SHA256Func w).2.opened = w.opened := by
  rw [CalculateHash_open_failed p w e ho]
  exact ⟨rfl, rfl, added_append _ _, rfl⟩

/-- C3 at a path that does not exist. -/
theorem C3_open_failure_witness :
    world0.fs (world0.clean "/data/missing") =
      .error (.os "open /data/missing: no such file or directory") ∧
    (CalculateHash "/data/missing" SHA256Func world0).1 =
      (ObjectHash.zero,
        some (.wrap (.os "open /data/missing: no such file or directory") "opening file")) ∧
    (Error.wrap (.os "open /data/missing: no such file or directory") "opening file").text =
      "opening file: open /data/missing: no such file or directory" ∧
    added world0.trace (CalculateHash "/data/missing" SHA256Func world0).2.trace =
      [.open "/data/missing" none] ∧
    (CalculateHash "/data/missing" SHA256Func world0).2.opened = [0, 1, 2] :=
  ⟨rfl, C3_open_failure "/data/missing" world0
    (.os "open /data/missing: no such file or directory") rfl⟩

/-- C4: when the file opens and its reads end with an error other than `io.EOF`, after any
bytes at all have been written to the hash, `CalculateHash(p, SHA256Func, logger)` returns
that error wrapped under `copying` and the zero `ObjectHash`, whose `Func` and `Value` are
empty. -/
theorem C4_read_failure (p : String) (w : World) (node : Node)
    (ho : w.fs (w.clean p) = .ok node) (hr : node.reads.err ≠ Error.eof) :
    (CalculateHash p SHA256Func w).1 =
      (ObjectHash.zero, some (.wrap node.reads.err "copying")) ∧
    ObjectHash.zero.Func = "" ∧ ObjectHash.zero.Value = "" := by
  rw [CalculateHash_opened p w node ho]
  refine ⟨?_, rfl, rfl⟩
  show outcome node.reads = _
  rw [outcome, if_neg hr]

/-- C4 at `/data/broken`, whose second read delivers a byte together with an error. -/
theorem C4_read_failure_witness :
    world0.fs (world0.clean "/data/broken") = .ok brokenNode ∧
    brokenNode.reads.err ≠ Error.eof ∧
    (CalculateHash "/data/broken" SHA256Func world0).1 =
      (ObjectHash.zero,
        some (.wrap (.os "read /data/broken: input/output error") "copying")) ∧
    ObjectHash.zero.Func = "" ∧ ObjectHash.zero.Value = "" :=
  ⟨rfl, by decide, C4_read_failure "/data/broken" world0 brokenNode rfl (by decide)⟩

/-- C5: `a.Equal(b)` holds exactly when the `Value` fields are equal, whatever the `Func`
fields are; so `a.Equal(a)` always holds and `a.Equal(b)` fails when the values differ. -/
theorem C5_equal_compares_values (a b : ObjectHash) :
    (a.Equal b = true ↔ a.Value = b.Value) ∧ a.Equal a = true ∧
    (a.Value ≠ b.Value → a.Equal b = false) := by
  refine ⟨?_, ?_, ?_⟩
  · unfold ObjectHash.Equal; exact beq_iff_eq
  · unfold ObjectHash.Equal; exact beq_self_eq_true _
  · intro h
    unfold ObjectHash.Equal
    exact beq_eq_false_iff_ne.mpr h

/-- C5 at two hashes with the same value under different functions, and at two different
values. -/
theorem C5_equal_compares_values_witness :
    ((ObjectHash.mk SHA256Func "00").Equal (ObjectHash.mk NoneFunc "00") = true ↔
        (ObjectHash.mk SHA256Func "00").Value = (ObjectHash.mk NoneFunc "00").Value) ∧
    (ObjectHash.mk SHA256Func "00").Equal (ObjectHash.mk SHA256Func "00") = true ∧
    ((ObjectHash.mk SHA256Func "00").Value ≠ (ObjectHash.mk NoneFunc "00").Value →
      (ObjectHash.mk SHA256Func "00").Equal (ObjectHash.mk NoneFunc "00") = false) :=
  C5_equal_compares_values (ObjectHash.mk SHA256Func "00") (ObjectHash.mk NoneFunc "00")

theorem SHA256_abc : hex.EncodeToString (sha256.SHA256 abc) =
    "ba7816bf8f01cfea414140de5dae2223b00361a396177a9cb410ff61f20015ad" := by
  decide

/-- C8: for a file that holds exactly the three bytes `abc`,
`CalculateHash(p, SHA256Func, logger)` returns a nil error and the `ObjectHash` with `Func`
`SHA256Func` and `Value`
`ba7816bf8f01cfea414140de5dae2223b00361a396177a9cb410ff61f20015ad`. -/
theorem C8_abc_test_vector (p : String) (w : World) (node : Node)
    (ho : w.fs (w.clean p) = .ok node) (hr : node.reads.err = Error.eof)
    (hb : node.reads.bytes = abc) :
    (CalculateHash p SHA256Func w).1 =
      ({ Func := SHA256Func,
         Value := "ba7816bf8f01cfea414140de5dae2223b00361a396177a9cb410ff61f20015ad" }, none) := by
  rw [CalculateHash_opened p w node ho]
  show outcome node.reads = _
  rw [outcome, if_pos hr, hb, SHA256_abc]

/-- C8 at `/data/abc`. -/
theorem C8_abc_test_vector_witness :
    world0.fs (world0.clean "/data/abc") = .ok abcNode ∧
    abcNode.reads.err = Error.eof ∧ abcNode.reads.bytes = abc ∧
    (CalculateHash "/data/abc" SHA256Func world0).1 =
      ({ Func := SHA256Func,
         Value := "ba7816bf8f01cfea414140de5dae2223b00361a396177a9cb410ff61f20015ad" }, none) :=
  ⟨rfl, rfl, rfl, C8_abc_test_vector "/data/abc" world0 abcNode rfl rfl rfl⟩

/-- C6: when the open succeeds, the pair `CalculateHash(p, SHA256Func, logger)` returns is
decided by the reads alone (the digest with a nil error when they end with `io.EOF`, the
`copying` error otherwise): with any other result `ce` of closing the file, a nil error
included, the returned pair is the same. The `Log` calls of the call are exactly the one
that reports the close error, if there is one: at most one call, and none when the close
succeeds. -/
theorem C6_close_error_only_logged (p : String) (w : World) (node : Node)
    (ho : w.fs (w.clean p) = .ok node) :
    (CalculateHash p SHA256Func w).1 = outcome node.reads ∧
    (∀ ce : Option Error,
      (CalculateHash p SHA256Func (w.withNode (w.clean p) ⟨node.reads, ce⟩)).1 =
        (CalculateHash p SHA256Func w).1) ∧
    (added w.trace (CalculateHash p SHA256Func w).2.trace).filter Event.isLog =
      closeLog p node.closeErr ∧
    ((added w.trace (CalculateHash p SHA256Func w).2.trace).filter Event.isLog).length ≤ 1 ∧
    (node.closeErr = none →
      (added w.trace (CalculateHash p SHA256Func w).2.trace).filter Event.isLog = []) := by
  have hlog : (added w.trace (CalculateHash p SHA256Func w).2.trace).filter Event.isLog =
      closeLog p node.closeErr := by
    rw [CalculateHash_opened p w node ho]
    show (added w.trace (w.trace ++ _)).filter Event.isLog = _
    rw [added_append, filter_isLog_callEvents]
  refine ⟨?_, ?_, hlog, ?_, ?_⟩
  · rw [CalculateHash_opened p w node ho]
  · intro ce
    have ho2 : (w.withNode (w.clean p) ⟨node.reads, ce⟩).fs
        ((w.withNode (w.clean p) ⟨node.reads, ce⟩).clean p) = .ok ⟨node.reads, ce⟩ := by
      simp [World.withNode]
    rw [CalculateHash_opened p _ _ ho2, CalculateHash_opened p w node ho]
  · rw [hlog]; cases node.closeErr <;> simp [closeLog]
  · intro hn; rw [hlog, hn]; rfl

/-- C6 at `/data/hello`, whose close fails: the digest is returned, as it is when the
close succeeds, and the close error is logged once. -/
theorem C6_close_error_only_logged_witness :
    world0.fs (world0.clean "/data/hello") = .ok helloNode ∧
    (CalculateHash "/data/hello" SHA256Func world0).1 = outcome helloNode.reads ∧
    (CalculateHash "/data/hello" SHA256Func
        (world0.withNode (world0.clean "/data/hello") ⟨helloNode.reads, none⟩)).1 =
      (CalculateHash "/data/hello" SHA256Func world0).1 ∧
    (added world0.trace (CalculateHash "/data/hello" SHA256Func world0).2.trace).filter
        Event.isLog =
      [.log "detected close error"
        (.wrap (.os "close /data/hello: input/output error") "closing /data/hello")] :=
  have h := C6_close_error_only_logged "/data/hello" world0 helloNode rfl
  ⟨rfl, h.1, h.2.1 none, h.2.2.1.trans (by decide)⟩

/-- C7: a call of `CalculateHash` leaves the open descriptors as they were. When the open
succeeds the call opens one descriptor and closes that descriptor once, whether the reads
end with `io.EOF` or with an error; when the algorithm is not supported or the open fails,
no descriptor is opened and nothing is closed. -/
theorem C7_no_handle_left_open (p : String) (hf : HashFunc) (w : World) :
    (CalculateHash p hf w).2.opened = w.opened ∧
    (∀ node : Node, hf = SHA256Func → w.fs (w.clean p) = .ok node →
      (added w.trace (CalculateHash p hf w).2.trace).filter
          (fun e => e.isOpened || e.isClose) =
        [Event.open (w.clean p) (some w.nextFd), Event.close w.nextFd]) ∧
    ((hf ≠ SHA256Func ∨ ∃ e, w.fs (w.clean p) = .error e) →
      (added w.trace (CalculateHash p hf w).2.trace).filter
          (fun e => e.isOpened || e.isClose) = []) := by
  refine ⟨?_, ?_, ?_⟩
  · by_cases h : hf = SHA256Func
    · subst h
      cases ho : w.fs (w.clean p) with
      | error e => rw [CalculateHash_open_failed p w e ho]
      | ok node => rw [CalculateHash_opened p w node ho]
    · rw [CalculateHash_unsupported p hf w h]
  · intro node h ho
    subst h
    rw [CalculateHash_opened p w node ho]
    show (added w.trace (w.trace ++ _)).filter _ = _
    rw [added_append, filter_handles_callEvents]
  · intro h
    by_cases h1 : hf = SHA256Func
    · subst h1
      rcases h with h | ⟨e, ho⟩
      · exact absurd rfl h
      · rw [CalculateHash_open_failed p w e ho]
        show (added w.trace (w.trace ++ _)).filter _ = _
        rw [added_append]
        rfl
    · rw [CalculateHash_unsupported p hf w h1, added_self]
      rfl

/-- C7 at `/data/broken`, whose reads fail: descriptor 3 is opened and closed, and the
descriptors open before the call are those open after it. -/
theorem C7_no_handle_left_open_witness :
    world0.fs (world0.clean "/data/broken") = .ok brokenNode ∧
    (CalculateHash "/data/broken" SHA256Func world0).2.opened = [0, 1, 2] ∧
    (added world0.trace (CalculateHash "/data/broken" SHA256Func world0).2.trace).filter
        (fun e => e.isOpened || e.isClose) =
      [Event.open "/data/broken" (some 3), Event.close 3] :=
  have h := C7_no_handle_left_open "/data/broken" SHA256Func world0
  ⟨rfl, h.1, h.2.1 brokenNode rfl rfl⟩

/-- C9: the `ObjectHash` returned by `CalculateHash` either has `Func` `SHA256Func` and a
`Value` of exactly 64 characters, each in `0-9` or `a-f`, or has `Func` `NoneFunc` and an
empty `Value`. -/
theorem C9_digest_value_invariant (p : String) (hf : HashFunc) (w : World) :
    ((CalculateHash p hf w).1.1.Func = SHA256Func ∧
      (CalculateHash p hf w).1.1.Value.length = 64 ∧
      ∀ c ∈ (CalculateHash p hf w).1.1.Value.toList, isLowerHex c) ∨
    ((CalculateHash p hf w).1.1.Func = NoneFunc ∧ (CalculateHash p hf w).1.1.Value = "") := by
  by_cases h : hf = SHA256Func
  · subst h
    cases ho : w.fs (w.clean p) with
    | error e => rw [CalculateHash_open_failed p w e ho]; exact Or.inr ⟨rfl, rfl⟩
    | ok node =>
      rw [CalculateHash_opened p w node ho]
      show ((outcome node.reads).1.Func = SHA256Func ∧ (outcome node.reads).1.Value.length = 64 ∧
        ∀ c ∈ (outcome node.reads).1.Value.toList, isLowerHex c) ∨
        ((outcome node.reads).1.Func = NoneFunc ∧ (outcome node.reads).1.Value = "")
      unfold outcome
      by_cases he : node.reads.err = Error.eof
      · rw [if_pos he]
        refine Or.inl ⟨rfl, ?_, EncodeToString_chars _⟩
        show (hex.EncodeToString _).length = 64
        rw [EncodeToString_length, SHA256_length]
      · rw [if_neg he]; exact Or.inr ⟨rfl, rfl⟩
  · rw [CalculateHash_unsupported p hf w h]; exact Or.inr ⟨rfl, rfl⟩

/-- C10: a second call of `CalculateHash` with the same arguments, made in the world the
first call leaves, returns the same pair as the first; the first call leaves the filesystem
as it was (the calls it makes are `os.Open`, `Read`, `Close` and `Log`, none of which
writes). -/
theorem C10_second_call_same_result (p : String) (hf : HashFunc) (w : World) :
    (CalculateHash p hf (CalculateHash p hf w).2).1 = (CalculateHash p hf w).1 ∧
    (CalculateHash p hf w).2.fs = w.fs ∧ (CalculateHash p hf w).2.clean = w.clean := by
  by_cases h : hf = SHA256Func
  · subst h
    cases ho : w.fs (w.clean p) with
    | error e =>
      rw [CalculateHash_open_failed p w e ho]
      refine ⟨?_, rfl, rfl⟩
      have h2 := CalculateHash_open_failed p
        { w with trace := w.trace ++ [.open (w.clean p) none] } e ho
      show (CalculateHash p SHA256Func
        { w with trace := w.trace ++ [.open (w.clean p) none] }).1 = _
      rw [h2]
    | ok node =>
      rw [CalculateHash_opened p w node ho]
      refine ⟨?_, rfl, rfl⟩
      have h2 := CalculateHash_opened p
        { w with nextFd := w.nextFd + 1,
                 trace := w.trace ++ callEvents p (w.clean p) w.nextFd node } node ho
      show (CalculateHash p SHA256Func
        { w with nextFd := w.nextFd + 1,
                 trace := w.trace ++ callEvents p (w.clean p) w.nextFd node }).1 = _
      rw [h2]
  · rw [CalculateHash_unsupported p hf w h]
    exact ⟨by rw [CalculateHash_unsupported p hf w h], rfl, rfl⟩

end Metadata
